/-
Verification of the indicator-computation and time-alignment engine of the
`stocks` repository (file `backend-python/app.py`) against its specification.

The two core functions are shallowly embedded:

* `read_latest_from_csv` (app.py lines 335-415): the Horizon Matcher.  Its
  input is the list of CSV rows (each row a `List String`, as produced by
  `csv.reader`); machine dates are embedded as proleptic-Gregorian day
  ordinals (`Int`), prices as exact rationals (`ℚ`).  A Python statement
  that can raise an uncaught exception is modelled by the dedicated outcome
  `ReadOutcome.raisesValueError`; `return None` is `ReadOutcome.noData`.

* `compute_indicators_from_csv` (app.py lines 177-300): the Indicator
  Engine.  The pandas numeric pipeline operates on the extracted close
  series, so the engine is embedded as `compute_indicators` over the close
  series `List ℚ`; the close-column name resolution (lines 202-209) is
  embedded separately as `resolveCloseCol` over the post-`set_index` column
  list.  `ewm(..., adjust := false)` with a leading NaN (from `diff()`)
  seeds at the first non-NaN value, which is exactly the seeded recurrence
  `emaAlpha` below applied to the delta list.

Floating-point rounding is abstracted by exact rational arithmetic; the
claims under verification concern branch structure, definedness and exact
algebraic identities, none of which depend on rounding.
-/
import Mathlib


/-! ## Character-level parsing helpers (Python `datetime.strptime` / `float`) -/

/-- Split a character list on a separator character, like `str.split(sep)` for a
single-character separator: `"" ↦ [[]]`, `"a-b" ↦ [[a],[b]]`. -/
def splitOnChar (sep : Char) : List Char → List Char → List (List Char)
  | [], cur => [cur.reverse]
  | c :: cs, cur =>
    if c = sep then cur.reverse :: splitOnChar sep cs []
    else splitOnChar sep cs (c :: cur)

/-- Numeric value of a digit list (valid only when every char is a digit). -/
def digitsVal (cs : List Char) : Nat :=
  cs.foldl (fun a c => a * 10 + (c.toNat - 48)) 0

/-- Parse a nonempty all-digit character list to a `Nat`, else `none`. -/
def digitsToNat (cs : List Char) : Option Nat :=
  if cs ≠ [] ∧ cs.all Char.isDigit then some (digitsVal cs) else none

/-- Leap-year test of the Gregorian calendar (Python `calendar`/`datetime`). -/
def isLeap (y : Nat) : Bool :=
  y % 4 = 0 && (y % 100 ≠ 0 || y % 400 = 0)

/-- Number of days of month `m` in year `y` (as validated by `datetime`). -/
def daysInMonth (y m : Nat) : Nat :=
  if m = 2 then (if isLeap y then 29 else 28)
  else if m = 4 ∨ m = 6 ∨ m = 9 ∨ m = 11 then 30
  else 31

/-- Cumulative day count before month `m` in year `y`. -/
def daysBeforeMonth (y m : Nat) : Nat :=
  let base :=
    if m ≤ 1 then 0 else if m = 2 then 31 else if m = 3 then 59
    else if m = 4 then 90 else if m = 5 then 120 else if m = 6 then 151
    else if m = 7 then 181 else if m = 8 then 212 else if m = 9 then 243
    else if m = 10 then 273 else if m = 11 then 304 else 334
  if 3 ≤ m ∧ isLeap y then base + 1 else base

/-- Proleptic-Gregorian ordinal of a calendar day, as in
`datetime.date.toordinal`; only day differences matter to the program. -/
def toOrdinal (y m d : Nat) : Nat :=
  365 * (y - 1) + (y - 1) / 4 - (y - 1) / 100 + (y - 1) / 400 +
    daysBeforeMonth y m + d

/-- Embedding of `datetime.strptime(s, "%Y-%m-%d")`: exactly three
dash-separated fields, a four-digit year, one-or-two-digit month and day,
with `datetime`'s range validation; result is the year/month/day triple. -/
def parseDateYMD (s : String) : Option (Nat × Nat × Nat) :=
  match splitOnChar '-' s.data [] with
  | [ys, ms, ds] =>
    match digitsToNat ys, digitsToNat ms, digitsToNat ds with
    | some y, some m, some d =>
      if ys.length = 4 ∧ ms.length ≤ 2 ∧ ds.length ≤ 2 ∧
         1 ≤ y ∧ 1 ≤ m ∧ m ≤ 12 ∧ 1 ≤ d ∧ d ≤ daysInMonth y m
      then some (y, m, d) else none
    | _, _, _ => none
  | _ => none

/-- `strptime` result as a day ordinal; `none` models a raised `ValueError`. -/
def parseDateOrd (s : String) : Option Int :=
  (parseDateYMD s).map (fun t => (toOrdinal t.1 t.2.1 t.2.2 : Int))

/-- Unsigned decimal literal (digits, optionally with one dot), as accepted by
Python `float`; scientific notation, `inf`/`nan` and surrounding whitespace
are outside the inputs this development quantifies over. -/
def parseUnsigned (cs : List Char) : Option ℚ :=
  match splitOnChar '.' cs [] with
  | [ip] => if ip ≠ [] ∧ ip.all Char.isDigit then some (digitsVal ip : ℚ) else none
  | [ip, fp] =>
    if (ip ≠ [] ∨ fp ≠ []) ∧ ip.all Char.isDigit ∧ fp.all Char.isDigit then
      some ((digitsVal ip : ℚ) + (digitsVal fp : ℚ) / (10 : ℚ) ^ fp.length)
    else none
  | _ => none

/-- Embedding of Python `float(s)`; `none` models a raised `ValueError`. -/
def parseFloat (s : String) : Option ℚ :=
  match s.data with
  | '-' :: rest => (parseUnsigned rest).map (fun q => -q)
  | '+' :: rest => parseUnsigned rest
  | cs => parseUnsigned cs

/-! ## Horizon Matcher (`read_latest_from_csv`, app.py lines 335-415) -/

/-- Lookback map of app.py lines 353-360: `{...}.get(duration, 1)`. -/
def durationDays (duration : String) : Int :=
  if duration = "1d" then 1
  else if duration = "1w" then 7
  else if duration = "1m" then 30
  else if duration = "3m" then 90
  else if duration = "6m" then 180
  else if duration = "1y" then 365
  else 1

/-- Data-row heuristic of app.py line 368:
`r[0] and (len(r[0]) >= 4 and r[0][0].isdigit())`. -/
def isDataRow (r : List String) : Bool :=
  match (r.headD "").data with
  | [] => false
  | c :: cs => decide (4 ≤ (c :: cs).length) && c.isDigit

/-- Rows surviving both filters of app.py lines 366-368: nonempty rows
(`if r`) that pass the data-row heuristic. -/
def dataRows (rows : List (List String)) : List (List String) :=
  (rows.filter (fun r => !r.isEmpty)).filter isDataRow

/-- Date of a row, parsed from its first field (`row[0]`). -/
def rowDate (r : List String) : Option Int :=
  parseDateOrd (r.headD "")

/-- Positional close extraction of app.py lines 391 and 402:
`float(row[2]) if len(row) > 2 and row[2] != "" else float(row[1])`.
For the matched (`prev`) row this single attempt is all there is; a `none`
result models the caught exception that leaves `prev_close = None`. -/
def closeFieldParse (r : List String) : Option ℚ :=
  if 2 < r.length ∧ r.getD 2 "" ≠ "" then parseFloat (r.getD 2 "")
  else (r.get? 1).bind parseFloat

/-- Close of the latest row, app.py lines 390-397: the positional attempt,
with a second attempt at `float(last[1])` on failure; `none` models the
final `return None`. -/
def closeOfRow (r : List String) : Option ℚ :=
  match closeFieldParse r with
  | some c => some c
  | none => (r.get? 1).bind parseFloat

/-- Nearest-row scan of app.py lines 378-388: keep the first row whose
parsed date minimizes the absolute day distance to the target (strict `<`
update, so earlier rows win exact ties); rows whose date fails to parse are
skipped by the `except ValueError: continue`. -/
def closestFold (target : Int) : List (List String) → Option (List String × Nat) →
    Option (List String × Nat)
  | [], acc => acc
  | r :: rest, acc =>
    match rowDate r with
    | none => closestFold target rest acc
    | some d =>
      match acc with
      | none => closestFold target rest (some (r, (d - target).natAbs))
      | some (_pr, pdiff) =>
        if (d - target).natAbs < pdiff then
          closestFold target rest (some (r, (d - target).natAbs))
        else closestFold target rest acc

/-- Result dictionary of `read_latest_from_csv` (app.py lines 410-415). -/
structure ChangeSummary where
  date : String
  close : ℚ
  prev_close : Option ℚ
  change_pct : Option ℚ
deriving DecidableEq

/-- Observable outcome of one call to `read_latest_from_csv`:
a raised (uncaught) exception, a `None` return, or a summary dictionary. -/
inductive ReadOutcome where
  | raisesValueError
  | noData
  | summary (s : ChangeSummary)
deriving DecidableEq

/-- Shallow embedding of `read_latest_from_csv` (app.py lines 335-415) on the
in-memory row list (the `csv.reader` output; the missing-file check of line
349 is the collaborator's I/O and outside the model).  Note that line 374
parses the last data row's date OUTSIDE any try/except, so a heuristic-passing
row with an unparsable date in last position raises `ValueError`. -/
def read_latest_from_csv (rows : List (List String)) (duration : String) :
    ReadOutcome :=
  let dRows := dataRows rows
  match dRows.getLast? with
  | none => .noData
  | some last =>
    match rowDate last with
    | none => .raisesValueError
    | some lastDate =>
      let target := lastDate - durationDays duration
      match closeOfRow last with
      | none => .noData
      | some close =>
        let prevClose := (closestFold target dRows none).bind
          (fun p => closeFieldParse p.1)
        let changePct :=
          match prevClose with
          | some pc => if pc = 0 then none else some ((close - pc) / pc * 100)
          | none => none
        .summary ⟨last.headD "", close, prevClose, changePct⟩

/-! ## Indicator Engine (`compute_indicators_from_csv`, app.py lines 177-300) -/

/-- Tail of the seeded EMA recurrence `y[t] = a*x[t] + (1-a)*y[t-1]`,
continuing from the previous smoothed value `prev`. -/
def emaAlphaFrom (a prev : ℚ) : List ℚ → List ℚ
  | [] => []
  | x :: xs =>
    let y := a * x + (1 - a) * prev
    y :: emaAlphaFrom a y xs

/-- `Series.ewm(alpha := a, adjust := false).mean()`: seeded at the first
value, then the recurrence `y[t] = a*x[t] + (1-a)*y[t-1]`. -/
def emaAlpha (a : ℚ) : List ℚ → List ℚ
  | [] => []
  | x :: xs => x :: emaAlphaFrom a x xs

/-- `Series.ewm(span := n, adjust := false).mean()`: alpha is `2/(n+1)`. -/
def emaSpan (n : Nat) (xs : List ℚ) : List ℚ :=
  emaAlpha (2 / ((n : ℚ) + 1)) xs

/-- `Series.diff()` without its leading NaN: consecutive differences. -/
def diffs : List ℚ → List ℚ
  | [] => []
  | [_] => []
  | x :: y :: xs => (y - x) :: diffs (y :: xs)

/-- Wilder smoothing constant of app.py lines 217-218: `alpha = 1/14`. -/
def rsiAlpha : ℚ := 1 / 14

/-- `gain.ewm(alpha=1/14, adjust=False).mean()` over the delta list
(`delta.clip(lower=0)`), after the leading NaN is skipped by `ewm`. -/
def wilderGains (closes : List ℚ) : List ℚ :=
  emaAlpha rsiAlpha ((diffs closes).map (fun d => max d 0))

/-- `loss.ewm(alpha=1/14, adjust=False).mean()` over the delta list
(`-delta.clip(upper=0)`), after the leading NaN is skipped by `ewm`. -/
def wilderLosses (closes : List ℚ) : List ℚ :=
  emaAlpha rsiAlpha ((diffs closes).map (fun d => max (-d) 0))

/-- Last RSI(14) value (app.py lines 213-220): `rs = avg_gain / avg_loss`
with a zero `avg_loss` replaced by NA, then `rsi = 100 - 100/(1+rs)`; `none`
is the reported-absent NaN case. -/
def rsiLast (closes : List ℚ) : Option ℚ :=
  match (wilderGains closes).getLast?, (wilderLosses closes).getLast? with
  | some g, some l => if l = 0 then none else some (100 - 100 / (1 + g / l))
  | _, _ => none

/-- Elementwise difference of two series of equal length. -/
def seriesSub (xs ys : List ℚ) : List ℚ :=
  List.zipWith (fun a b => a - b) xs ys

/-- `macd = ema12(close) - ema26(close)` (app.py lines 228-230). -/
def macdLine (closes : List ℚ) : List ℚ :=
  seriesSub (emaSpan 12 closes) (emaSpan 26 closes)

/-- `signal = macd.ewm(span=9, adjust=False).mean()` (app.py line 231). -/
def signalLine (closes : List ℚ) : List ℚ :=
  emaSpan 9 (macdLine closes)

/-- `macd_hist = macd - signal` (app.py line 232). -/
def macdHistList (closes : List ℚ) : List ℚ :=
  seriesSub (macdLine closes) (signalLine closes)

/-- Crossover classification from the last two histogram values
(app.py lines 234-242). -/
def crossoverOf (hist : List ℚ) : String :=
  if 2 ≤ hist.length then
    let prev := hist.getD (hist.length - 2) 0
    let curr := hist.getD (hist.length - 1) 0
    if prev ≤ 0 ∧ 0 < curr then "bullish"
    else if 0 ≤ prev ∧ curr < 0 then "bearish"
    else "neutral"
  else "neutral"

/-- Candidate close-column names of app.py line 203, in priority order. -/
def closeCandidateCols : List String :=
  ["Close", "close", "Adj Close", "AdjClose", "Adj_Close"]

/-- Close-column resolution of app.py lines 201-209, over the column list
after `Date` became the index: first matching candidate name, else the first
remaining (non-date) column. -/
def resolveCloseCol (cols : List String) : Option String :=
  match closeCandidateCols.find? (fun c => cols.contains c) with
  | some c => some c
  | none => cols.head?

/-- Snapshot returned by the Indicator Engine (app.py lines 286-300); the
bounded `ohlcv` charting tail of lines 260-284 is not consumed by any claim
and is omitted.  Fields that the code guards with `pd.isna` are unguarded
here because an `ewm` over a nonempty all-rational series is never NaN. -/
structure IndicatorSnapshot where
  latest_close : ℚ
  rsi : Option ℚ
  macd : ℚ
  macd_signal : ℚ
  macd_hist : ℚ
  macd_crossover : String
  above_21 : Bool
  above_44 : Bool
  above_200 : Bool
  dist_21 : Option ℚ
  dist_44 : Option ℚ
  dist_200 : Option ℚ
deriving DecidableEq

/-- Percentage distance helper `pct_dist` of app.py lines 246-250. -/
def pctDist (latest v : ℚ) : Option ℚ :=
  if v = 0 then none else some ((latest - v) / v * 100)

/-- Shallow embedding of the numeric pipeline of `compute_indicators_from_csv`
(app.py lines 194-300) over the extracted close series
`close = df[close_col].astype(float)`; the row count `df.shape[0]` equals the
length of that series.  `none` is the insufficient-data `return None` of
lines 194-195. -/
def compute_indicators (closes : List ℚ) : Option IndicatorSnapshot :=
  if closes.length < 10 then none
  else
    let latest := closes.getLastD 0
    let hist := macdHistList closes
    let e21 := (emaSpan 21 closes).getLastD 0
    let e44 := (emaSpan 44 closes).getLastD 0
    let e200 := (emaSpan 200 closes).getLastD 0
    some
      { latest_close := latest
        rsi := rsiLast closes
        macd := (macdLine closes).getLastD 0
        macd_signal := (signalLine closes).getLastD 0
        macd_hist := hist.getLastD 0
        macd_crossover := crossoverOf hist
        above_21 := decide (e21 < latest)
        above_44 := decide (e44 < latest)
        above_200 := decide (e200 < latest)
        dist_21 := pctDist latest e21
        dist_44 := pctDist latest e44
        dist_200 := pctDist latest e200 }

/-- Parsed candidates of the nearest-row scan, paired with their day
distance, in row order. -/
def cands (target : Int) (rows : List (List String)) : List (List String × Nat) :=
  rows.filterMap (fun r => (rowDate r).map (fun d => (r, (d - target).natAbs)))

/-- One update step of the nearest-row scan over a parsed candidate. -/
def selStep (acc : Option (List String × Nat)) (p : List String × Nat) :
    Option (List String × Nat) :=
  match acc with
  | none => some p
  | some q => if p.2 < q.2 then some p else some q

/-- Boolean strictly-ascending date comparison between two rows (vacuously
true when either date does not parse), used to state series ordering. -/
def dateLtB (a b : List String) : Bool :=
  match rowDate a, rowDate b with
  | some da, some db => decide (da < db)
  | _, _ => true

/-! ## Helper lemmas about the embedded operations -/

theorem emaAlphaFrom_length (a prev : ℚ) (xs : List ℚ) :
    (emaAlphaFrom a prev xs).length = xs.length := by
  induction xs generalizing prev with
  | nil => rfl
  | cons x xs ih => simp [emaAlphaFrom, ih]

theorem emaAlpha_length (a : ℚ) (xs : List ℚ) :
    (emaAlpha a xs).length = xs.length := by
  cases xs with
  | nil => rfl
  | cons x xs => simp [emaAlpha, emaAlphaFrom_length]

theorem seriesSub_length (xs ys : List ℚ) :
    (seriesSub xs ys).length = min xs.length ys.length := by
  simp [seriesSub]

theorem macdLine_length (closes : List ℚ) :
    (macdLine closes).length = closes.length := by
  simp [macdLine, seriesSub_length, emaSpan, emaAlpha_length]

theorem signalLine_length (closes : List ℚ) :
    (signalLine closes).length = closes.length := by
  simp [signalLine, emaSpan, emaAlpha_length, macdLine_length]

theorem macdHistList_length (closes : List ℚ) :
    (macdHistList closes).length = closes.length := by
  simp [macdHistList, seriesSub_length, macdLine_length, signalLine_length]

theorem emaAlphaFrom_const (a c : ℚ) (n : Nat) :
    emaAlphaFrom a c (List.replicate n c) = List.replicate n c := by
  induction n with
  | zero => rfl
  | succ n ih =>
    have hc : a * c + (1 - a) * c = c := by ring
    simp [List.replicate_succ, emaAlphaFrom, hc, ih]

theorem emaAlpha_const (a c : ℚ) (n : Nat) :
    emaAlpha a (List.replicate n c) = List.replicate n c := by
  cases n with
  | zero => rfl
  | succ n => simp [List.replicate_succ, emaAlpha, emaAlphaFrom_const]

theorem diffs_const (c : ℚ) (n : Nat) :
    diffs (List.replicate n c) = List.replicate (n - 1) 0 := by
  induction n with
  | zero => rfl
  | succ n ih =>
    cases n with
    | zero => rfl
    | succ m =>
      simp only [List.replicate_succ, diffs] at ih ⊢
      simp [ih, sub_self, List.replicate_succ]

theorem crossoverOf_spec (hist : List ℚ) (h2 : 2 ≤ hist.length) :
    (crossoverOf hist = "bullish" ↔
       hist.getD (hist.length - 2) 0 ≤ 0 ∧ 0 < hist.getD (hist.length - 1) 0) ∧
    (crossoverOf hist = "bearish" ↔
       0 ≤ hist.getD (hist.length - 2) 0 ∧ hist.getD (hist.length - 1) 0 < 0) ∧
    (crossoverOf hist = "neutral" ↔
       ¬(hist.getD (hist.length - 2) 0 ≤ 0 ∧ 0 < hist.getD (hist.length - 1) 0) ∧
       ¬(0 ≤ hist.getD (hist.length - 2) 0 ∧ hist.getD (hist.length - 1) 0 < 0)) := by
  unfold crossoverOf
  rw [if_pos h2]
  set p := hist.getD (hist.length - 2) 0 with hp
  set c := hist.getD (hist.length - 1) 0 with hc
  by_cases hb : p ≤ 0 ∧ 0 < c
  · have hnb : ¬(0 ≤ p ∧ c < 0) := fun hx => absurd hb.2 (not_lt.mpr hx.2.le)
    rw [if_pos hb]
    simp [hb, hnb]
  · rw [if_neg hb]
    by_cases hr : 0 ≤ p ∧ c < 0
    · rw [if_pos hr]
      simp [hb, hr]
    · rw [if_neg hr]
      simp [hb, hr]

theorem crossoverOf_short (hist : List ℚ) (h2 : hist.length < 2) :
    crossoverOf hist = "neutral" := by
  unfold crossoverOf
  rw [if_neg (by omega)]

/-! ## Claim C2 -/

/-- Claim C2: for every price series with fewer than 10 usable rows (in
particular any 5-row series, regardless of values) `compute_indicators`
returns `none` rather than a snapshot and rather than raising, and for
series with 10 or more rows the insufficient-data branch is not taken. -/
theorem compute_indicators_insufficient_rows (closes : List ℚ) :
    (closes.length < 10 → compute_indicators closes = none) ∧
    (closes.length = 5 → compute_indicators closes = none) ∧
    (10 ≤ closes.length → (compute_indicators closes).isSome = true) := by
  refine ⟨fun h => ?_, fun h => ?_, fun h => ?_⟩
  · simp [compute_indicators, h]
  · simp [compute_indicators, h]
  · unfold compute_indicators
    rw [if_neg (by omega)]
    rfl

/-- Witness for C2 at concrete 5-row and 12-row series. -/
theorem compute_indicators_insufficient_rows_witness :
    compute_indicators (List.replicate 5 (50:ℚ)) = none ∧
    (compute_indicators (List.replicate 12 (50:ℚ))).isSome = true :=
  ⟨(compute_indicators_insufficient_rows (List.replicate 5 (50:ℚ))).2.1 (by simp),
   (compute_indicators_insufficient_rows (List.replicate 12 (50:ℚ))).2.2 (by simp)⟩

/-! ## Claim C3 -/

/-- Claim C3: over any series whose MACD histogram has at least 2 values the
crossover classification is bullish iff `hist[-2] ≤ 0 < hist[-1]`, bearish
iff `hist[-2] ≥ 0 > hist[-1]`, and neutral otherwise (in particular on two
consecutive exact zeros); with fewer than 2 histogram values it is neutral. -/
theorem macd_crossover_classification (closes : List ℚ) :
    (2 ≤ closes.length →
      ((crossoverOf (macdHistList closes) = "bullish" ↔
          (macdHistList closes).getD ((macdHistList closes).length - 2) 0 ≤ 0 ∧
          0 < (macdHistList closes).getD ((macdHistList closes).length - 1) 0) ∧
       (crossoverOf (macdHistList closes) = "bearish" ↔
          0 ≤ (macdHistList closes).getD ((macdHistList closes).length - 2) 0 ∧
          (macdHistList closes).getD ((macdHistList closes).length - 1) 0 < 0) ∧
       (crossoverOf (macdHistList closes) = "neutral" ↔
          ¬((macdHistList closes).getD ((macdHistList closes).length - 2) 0 ≤ 0 ∧
            0 < (macdHistList closes).getD ((macdHistList closes).length - 1) 0) ∧
          ¬(0 ≤ (macdHistList closes).getD ((macdHistList closes).length - 2) 0 ∧
            (macdHistList closes).getD ((macdHistList closes).length - 1) 0 < 0)) ∧
       (((macdHistList closes).getD ((macdHistList closes).length - 2) 0 = 0 ∧
         (macdHistList closes).getD ((macdHistList closes).length - 1) 0 = 0) →
          crossoverOf (macdHistList closes) = "neutral"))) ∧
    (closes.length < 2 → crossoverOf (macdHistList closes) = "neutral") := by
  have hl := macdHistList_length closes
  constructor
  · intro h2
    obtain ⟨hbu, hbe, hne⟩ := crossoverOf_spec (macdHistList closes) (by omega)
    refine ⟨hbu, hbe, hne, fun hz => ?_⟩
    refine hne.mpr ⟨?_, ?_⟩ <;> rw [hz.1, hz.2] <;> norm_num
  · intro h2
    exact crossoverOf_short _ (by omega)

/-- Witness for C3 at the concrete series `[0, 1]`, whose histogram tail is
`(0, 112/1755)` and classifies as bullish. -/
theorem macd_crossover_classification_witness :
    crossoverOf (macdHistList [0, 1]) = "bullish" := by
  have hval : macdHistList [(0:ℚ), 1] = [0, 112/1755] := by
    norm_num [macdHistList, macdLine, signalLine, seriesSub, emaSpan, emaAlpha,
      emaAlphaFrom]
  exact (((macd_crossover_classification [0, 1]).1 (by simp)).1).mpr
    (by rw [hval]; norm_num)

/-! ## Claim C4 -/

theorem emaAlphaFrom_nonneg (a : ℚ) (ha0 : 0 ≤ a) (ha1 : a ≤ 1) :
    ∀ (xs : List ℚ) (prev : ℚ), 0 ≤ prev → (∀ x ∈ xs, 0 ≤ x) →
      ∀ y ∈ emaAlphaFrom a prev xs, 0 ≤ y := by
  intro xs
  induction xs with
  | nil =>
    intro prev _ _ y hy
    simp [emaAlphaFrom] at hy
  | cons x xs ih =>
    intro prev hprev hxs y hy
    simp only [emaAlphaFrom, List.mem_cons] at hy
    have hx : 0 ≤ x := hxs x (by simp)
    have hy0 : 0 ≤ a * x + (1 - a) * prev :=
      add_nonneg (mul_nonneg ha0 hx) (mul_nonneg (by linarith) hprev)
    cases hy with
    | inl h => exact h ▸ hy0
    | inr h => exact ih _ hy0 (fun z hz => hxs z (by simp [hz])) y h

theorem emaAlpha_nonneg (a : ℚ) (ha0 : 0 ≤ a) (ha1 : a ≤ 1) (xs : List ℚ)
    (hxs : ∀ x ∈ xs, 0 ≤ x) : ∀ y ∈ emaAlpha a xs, 0 ≤ y := by
  cases xs with
  | nil => intro y hy; simp [emaAlpha] at hy
  | cons x xs =>
    intro y hy
    simp only [emaAlpha, List.mem_cons] at hy
    have hx : 0 ≤ x := hxs x (by simp)
    cases hy with
    | inl h => exact h ▸ hx
    | inr h =>
      exact emaAlphaFrom_nonneg a ha0 ha1 xs x hx
        (fun z hz => hxs z (by simp [hz])) y h

/-- Claim C4: whenever the RSI(14) value (Wilder smoothing with alpha 1/14
over clipped gains and losses) is defined, it lies in the closed interval
`[0, 100]`. -/
theorem rsi_within_bounds (closes : List ℚ) (r : ℚ)
    (h : rsiLast closes = some r) : 0 ≤ r ∧ r ≤ 100 := by
  unfold rsiLast at h
  cases hg : (wilderGains closes).getLast? with
  | none => rw [hg] at h; simp at h
  | some g =>
    cases hl : (wilderLosses closes).getLast? with
    | none => rw [hg, hl] at h; simp at h
    | some l =>
      rw [hg, hl] at h
      have h' : (if l = 0 then none else some (100 - 100 / (1 + g / l))) = some r := h
      by_cases hl0 : l = 0
      · simp [hl0] at h'
      · rw [if_neg hl0] at h'
        have hr : 100 - 100 / (1 + g / l) = r := Option.some.inj h'
        have hga : 0 ≤ g := by
          refine emaAlpha_nonneg rsiAlpha (by norm_num [rsiAlpha])
            (by norm_num [rsiAlpha]) _ (fun x hx => ?_) g
            (List.mem_of_getLast?_eq_some hg)
          obtain ⟨d, _, rfl⟩ := List.mem_map.mp hx
          exact le_max_right d 0
        have hla : 0 ≤ l := by
          refine emaAlpha_nonneg rsiAlpha (by norm_num [rsiAlpha])
            (by norm_num [rsiAlpha]) _ (fun x hx => ?_) l
            (List.mem_of_getLast?_eq_some hl)
          obtain ⟨d, _, rfl⟩ := List.mem_map.mp hx
          exact le_max_right (-d) 0
        have hlpos : 0 < l := lt_of_le_of_ne hla (Ne.symm hl0)
        have hq : 0 ≤ g / l := div_nonneg hga hlpos.le
        have h1 : (0:ℚ) < 1 + g / l := by linarith
        have hdle : 100 / (1 + g / l) ≤ 100 := by
          rw [div_le_iff₀ h1]
          nlinarith
        have hdpos : 0 < 100 / (1 + g / l) := div_pos (by norm_num) h1
        constructor <;> linarith

/-- Witness for C4 at the concrete series `[50, 40]`, where the RSI is
defined and equals `0`. -/
theorem rsi_within_bounds_witness : 0 ≤ (0:ℚ) ∧ (0:ℚ) ≤ 100 :=
  rsi_within_bounds [50, 40] 0 (by
    norm_num [rsiLast, wilderGains, wilderLosses, diffs, emaAlpha, emaAlphaFrom,
      rsiAlpha, max_def])

/-! ## Claim C5 -/

/-- Claim C5: on 20 rows of constant close `50`, the engine returns a
snapshot whose RSI is absent (zero average loss reported as absent, not a
division), whose EMA21 at the last row equals `50` by the seeded recurrence,
whose MACD histogram is `0`, and whose crossover is neutral. -/
theorem constant_series_snapshot :
    compute_indicators (List.replicate 20 (50:ℚ)) =
      some { latest_close := 50, rsi := none, macd := 0, macd_signal := 0,
             macd_hist := 0, macd_crossover := "neutral", above_21 := false,
             above_44 := false, above_200 := false, dist_21 := some 0,
             dist_44 := some 0, dist_200 := some 0 } ∧
    (emaSpan 21 (List.replicate 20 (50:ℚ))).getLastD 0 = 50 := by
  have hEma : ∀ n : Nat, emaSpan n (List.replicate 20 (50:ℚ)) = List.replicate 20 50 :=
    fun n => emaAlpha_const _ _ _
  have hMacd : macdLine (List.replicate 20 (50:ℚ)) = List.replicate 20 0 := by
    unfold macdLine seriesSub
    simp only [hEma, List.zipWith_replicate', sub_self]
  have hSig : signalLine (List.replicate 20 (50:ℚ)) = List.replicate 20 0 := by
    unfold signalLine
    rw [hMacd]
    exact emaAlpha_const _ _ _
  have hHist : macdHistList (List.replicate 20 (50:ℚ)) = List.replicate 20 0 := by
    unfold macdHistList seriesSub
    rw [hMacd, hSig]
    simp only [List.zipWith_replicate', sub_self]
  have hRsi : rsiLast (List.replicate 20 (50:ℚ)) = none := by
    have hdi : diffs (List.replicate 20 (50:ℚ)) = List.replicate 19 0 := by
      rw [diffs_const]
    have h19 : (19:Nat) ≠ 0 := by norm_num
    unfold rsiLast wilderGains wilderLosses
    rw [hdi]
    simp only [List.map_replicate, neg_zero, max_self, emaAlpha_const,
      List.getLast?_replicate, if_neg h19]
    norm_num
  have hCross : crossoverOf (List.replicate 20 (0:ℚ)) = "neutral" := by
    have hD : ∀ i, (List.replicate 20 (0:ℚ)).getD i 0 = 0 := by
      intro i
      rw [List.getD_eq_getElem?_getD, List.getElem?_replicate]
      split <;> rfl
    refine (crossoverOf_spec _ (by simp)).2.2.mpr ?_
    simp only [hD]
    norm_num
  have hLast : (List.replicate 20 (50:ℚ)).getLastD 0 = 50 := by
    rw [List.getLastD_eq_getLast?, List.getLast?_replicate]
    norm_num
  have hLast0 : (List.replicate 20 (0:ℚ)).getLastD 0 = 0 := by
    rw [List.getLastD_eq_getLast?, List.getLast?_replicate]
    norm_num
  refine ⟨?_, by rw [hEma 21]; exact hLast⟩
  unfold compute_indicators
  rw [if_neg (by simp)]
  simp only [hEma, hMacd, hSig, hHist, hRsi, hCross, hLast, hLast0]
  norm_num [pctDist]

/-! ## Argmin structure of the nearest-row scan -/

theorem cands_cons (target : Int) (r : List String) (rest : List (List String)) :
    cands target (r :: rest) =
      match rowDate r with
      | none => cands target rest
      | some d => (r, (d - target).natAbs) :: cands target rest := by
  unfold cands
  rw [List.filterMap_cons]
  cases rowDate r <;> simp

theorem closestFold_eq_foldl (target : Int) (rows : List (List String)) :
    ∀ acc, closestFold target rows acc = (cands target rows).foldl selStep acc := by
  induction rows with
  | nil => intro acc; rfl
  | cons r rest ih =>
    intro acc
    rw [cands_cons]
    cases hd : rowDate r with
    | none =>
      simp only [closestFold, hd]
      exact ih acc
    | some d =>
      cases acc with
      | none =>
        simp only [closestFold, hd, List.foldl_cons, selStep]
        exact ih _
      | some q =>
        rcases q with ⟨pr, pdiff⟩
        simp only [closestFold, hd, List.foldl_cons, selStep]
        by_cases hlt : (d - target).natAbs < pdiff
        · rw [if_pos hlt, if_pos hlt]
          exact ih _
        · rw [if_neg hlt, if_neg hlt]
          exact ih _

theorem foldl_selStep_isSome (l : List (List String × Nat)) :
    ∀ q, ((l.foldl selStep (some q)).isSome : Bool) = true := by
  induction l with
  | nil => intro q; rfl
  | cons p ps ih =>
    intro q
    rw [List.foldl_cons]
    by_cases h : p.2 < q.2
    · simp only [selStep, if_pos h]
      exact ih p
    · simp only [selStep, if_neg h]
      exact ih q

theorem foldl_selStep_some (l : List (List String × Nat)) :
    ∀ (q r : List String × Nat), l.foldl selStep (some q) = some r →
      (r = q ∧ ∀ p ∈ l, q.2 ≤ p.2) ∨
      (∃ l1 l2, l = l1 ++ r :: l2 ∧ r.2 < q.2 ∧ (∀ p ∈ l1, r.2 < p.2) ∧
        (∀ p ∈ l2, r.2 ≤ p.2)) := by
  induction l with
  | nil =>
    intro q r h
    left
    exact ⟨(Option.some.inj h).symm, by simp⟩
  | cons p ps ih =>
    intro q r h
    rw [List.foldl_cons] at h
    by_cases hlt : p.2 < q.2
    · simp only [selStep, if_pos hlt] at h
      rcases ih p r h with ⟨hrp, hall⟩ | ⟨l1, l2, hsplit, hrlt, h1, h2⟩
      · right
        refine ⟨[], ps, by rw [hrp]; rfl, hrp ▸ hlt, by simp, fun x hx => hrp ▸ hall x hx⟩
      · right
        refine ⟨p :: l1, l2, by simp [hsplit], lt_trans hrlt hlt, ?_, h2⟩
        intro x hx
        rcases List.mem_cons.mp hx with rfl | hx'
        · exact hrlt
        · exact h1 x hx'
    · have hge : q.2 ≤ p.2 := not_lt.mp hlt
      simp only [selStep, if_neg hlt] at h
      rcases ih q r h with ⟨hrq, hall⟩ | ⟨l1, l2, hsplit, hrlt, h1, h2⟩
      · left
        refine ⟨hrq, fun x hx => ?_⟩
        rcases List.mem_cons.mp hx with rfl | hx'
        · exact hge
        · exact hall x hx'
      · right
        refine ⟨p :: l1, l2, by simp [hsplit], hrlt, ?_, h2⟩
        intro x hx
        rcases List.mem_cons.mp hx with rfl | hx'
        · exact lt_of_lt_of_le hrlt hge
        · exact h1 x hx'

theorem foldl_selStep_none (l : List (List String × Nat)) (r : List String × Nat)
    (h : l.foldl selStep none = some r) :
    ∃ l1 l2, l = l1 ++ r :: l2 ∧ (∀ p ∈ l1, r.2 < p.2) ∧ (∀ p ∈ l2, r.2 ≤ p.2) := by
  cases l with
  | nil => exact absurd h (by simp)
  | cons p ps =>
    rw [List.foldl_cons] at h
    simp only [selStep] at h
    rcases foldl_selStep_some ps p r h with ⟨hrp, hall⟩ | ⟨l1, l2, hsplit, hrlt, h1, h2⟩
    · exact ⟨[], ps, by simp [hrp], by simp, fun x hx => hrp ▸ hall x hx⟩
    · refine ⟨p :: l1, l2, by simp [hsplit], fun x hx => ?_, h2⟩
      rcases List.mem_cons.mp hx with rfl | hx'
      · exact hrlt
      · exact h1 x hx'

theorem mem_cands (target : Int) (rows : List (List String)) (p : List String × Nat) :
    p ∈ cands target rows ↔
      ∃ r d, r ∈ rows ∧ rowDate r = some d ∧ p = (r, (d - target).natAbs) := by
  unfold cands
  rw [List.mem_filterMap]
  constructor
  · rintro ⟨r, hr, hf⟩
    rcases Option.map_eq_some'.mp hf with ⟨d, hd, hp⟩
    exact ⟨r, d, hr, hd, hp.symm⟩
  · rintro ⟨r, d, hr, hd, hp⟩
    refine ⟨r, hr, ?_⟩
    rw [hd, hp]
    rfl

/-- Shape of a successful `read_latest_from_csv` call: once the last data
row, its date, its close and the scan result are fixed, the returned summary
is determined (matched close via the single positional attempt). -/
theorem read_latest_summary_eq (rows : List (List String)) (dur : String)
    (last : List String) (lastDate : Int) (c : ℚ) (p : List String × Nat)
    (hlast : (dataRows rows).getLast? = some last)
    (hdate : rowDate last = some lastDate)
    (hclose : closeOfRow last = some c)
    (hfold : closestFold (lastDate - durationDays dur) (dataRows rows) none = some p) :
    read_latest_from_csv rows dur =
      .summary ⟨last.headD "", c, closeFieldParse p.1,
        match closeFieldParse p.1 with
        | some pc => if pc = 0 then none else some ((c - pc) / pc * 100)
        | none => none⟩ := by
  unfold read_latest_from_csv
  simp only [hlast, hdate, hclose, hfold, Option.some_bind]

/-! ## Claim C6 -/

/-- Claim C6: whenever some row's date is exactly `last.date - 7` days (the
"1w" lookback), the nearest-row scan returns a row at day-distance `0` whose
date is exactly the target, not a neighbor. -/
theorem one_week_exact_row (rows : List (List String)) (lastDate : Int)
    (hex : ∃ r ∈ rows, rowDate r = some (lastDate - durationDays "1w")) :
    ∃ r, closestFold (lastDate - durationDays "1w") rows none = some (r, 0) ∧
      rowDate r = some (lastDate - durationDays "1w") := by
  obtain ⟨r0, hr0, hd0⟩ := hex
  have hc0 : (r0, 0) ∈ cands (lastDate - durationDays "1w") rows := by
    rw [mem_cands]
    exact ⟨r0, lastDate - durationDays "1w", hr0, hd0, by simp⟩
  have hsome : ((closestFold (lastDate - durationDays "1w") rows none).isSome : Bool)
      = true := by
    rw [closestFold_eq_foldl]
    rcases hne : cands (lastDate - durationDays "1w") rows with _ | ⟨p, ps⟩
    · rw [hne] at hc0
      simp at hc0
    · rw [List.foldl_cons]
      simp only [selStep]
      exact foldl_selStep_isSome ps p
  obtain ⟨res, hres⟩ := Option.isSome_iff_exists.mp hsome
  rcases res with ⟨rr, n⟩
  obtain ⟨l1, l2, heq, h1, h2⟩ := foldl_selStep_none _ (rr, n)
    (by rw [← closestFold_eq_foldl]; exact hres)
  have hn0 : n = 0 := by
    rw [heq] at hc0
    rcases List.mem_append.mp hc0 with hin1 | hin2
    · have := h1 _ hin1
      omega
    · rcases List.mem_cons.mp hin2 with hmid | hin2'
      · exact ((Prod.ext_iff.mp hmid).2).symm
      · have := h2 _ hin2'
        omega
  have hrrc : (rr, n) ∈ cands (lastDate - durationDays "1w") rows := by
    rw [heq]
    simp
  obtain ⟨r', d', hr', hd', hp⟩ := (mem_cands _ _ _).mp hrrc
  have hfst : rr = r' := congrArg Prod.fst hp
  have hsnd : n = (d' - (lastDate - durationDays "1w")).natAbs := congrArg Prod.snd hp
  have hd'eq : d' = lastDate - durationDays "1w" := by
    have hz0 : (d' - (lastDate - durationDays "1w")).natAbs = 0 := by omega
    have hz : d' - (lastDate - durationDays "1w") = 0 := Int.natAbs_eq_zero.mp hz0
    omega
  refine ⟨rr, by rw [hn0] at hres; exact hres, ?_⟩
  rw [hfst, hd', hd'eq]

/-- Witness for C6: the concrete series
`[(2024-01-01, close 100), (2024-01-08, close 110)]` with horizon `"1w"`
matches the `2024-01-01` row at distance `0` and yields `change_pct = 10`. -/
theorem one_week_exact_row_witness :
    (∃ r, closestFold ((toOrdinal 2024 1 8 : Int) - durationDays "1w")
        [["2024-01-01", "", "100"], ["2024-01-08", "", "110"]] none = some (r, 0) ∧
      rowDate r = some ((toOrdinal 2024 1 8 : Int) - durationDays "1w")) ∧
    read_latest_from_csv [["2024-01-01", "", "100"], ["2024-01-08", "", "110"]] "1w" =
      .summary ⟨"2024-01-08", 110, some 100, some 10⟩ := by
  constructor
  · exact one_week_exact_row _ (toOrdinal 2024 1 8 : Int)
      ⟨["2024-01-01", "", "100"], by simp, by decide⟩
  · have h := read_latest_summary_eq
      [["2024-01-01", "", "100"], ["2024-01-08", "", "110"]] "1w"
      ["2024-01-08", "", "110"] (toOrdinal 2024 1 8 : Int) 110
      (["2024-01-01", "", "100"], 0) (by decide) (by decide) (by decide) (by decide)
    have hp : closeFieldParse ["2024-01-01", "", "100"] = some 100 := by decide
    rw [h, hp]
    norm_num

theorem cands_eq_map (target : Int) (rows : List (List String))
    (hp : ∀ r ∈ rows, ((rowDate r).isSome : Bool) = true) :
    cands target rows =
      rows.map (fun rr => (rr, (((rowDate rr).getD 0) - target).natAbs)) := by
  induction rows with
  | nil => rfl
  | cons a as ih =>
    rw [cands_cons, List.map_cons]
    cases ha : rowDate a with
    | none =>
      have := hp a (by simp)
      rw [ha] at this
      simp at this
    | some d =>
      have has := ih (fun r hr => hp r (by simp [hr]))
      simp [has, ha]

/-! ## Claim C7 -/

/-- Claim C7: over any ascending-date series whose dates all parse, the row
selected by the nearest-row scan has minimum absolute day distance to the
target, and among all minimum-distance rows it has the earliest date (the
first-encountered candidate wins exact ties). -/
theorem horizon_matcher_first_min (target : Int) (rows : List (List String))
    (hp : ∀ r ∈ rows, ((rowDate r).isSome : Bool) = true)
    (hs : rows.Pairwise (fun a b => dateLtB a b = true))
    (r : List String) (n : Nat)
    (h : closestFold target rows none = some (r, n)) :
    ∃ d, rowDate r = some d ∧ (d - target).natAbs = n ∧
      (∀ r' ∈ rows, ∀ d', rowDate r' = some d' → n ≤ (d' - target).natAbs) ∧
      (∀ r' ∈ rows, ∀ d', rowDate r' = some d' →
        (d' - target).natAbs = n → d ≤ d') := by
  have hmap := cands_eq_map target rows hp
  set f : List String → (List String × Nat) :=
      fun rr => (rr, (((rowDate rr).getD 0) - target).natAbs) with hf
  obtain ⟨l1, l2, heq, h1, h2⟩ := foldl_selStep_none (cands target rows) (r, n)
    (by rw [← closestFold_eq_foldl]; exact h)
  have hmapeq : rows.map f = l1 ++ (r, n) :: l2 := by rw [← hmap, heq]
  obtain ⟨rows1, rest, hrowseq, hm1, hmrest⟩ := List.map_eq_append_iff.mp hmapeq
  obtain ⟨rmid, rows2, hresteq, hfmid, hm2⟩ := List.map_eq_cons_iff.mp hmrest
  have hrmid : rmid = r := congrArg Prod.fst hfmid
  subst hrmid
  have hrmem : rmid ∈ rows := by
    rw [hrowseq, hresteq]
    simp
  obtain ⟨d, hd⟩ := Option.isSome_iff_exists.mp (hp rmid hrmem)
  have hdn : (d - target).natAbs = n := by
    have hsnd : (((rowDate rmid).getD 0) - target).natAbs = n := congrArg Prod.snd hfmid
    rw [hd] at hsnd
    exact hsnd
  have hminp : ∀ r' ∈ rows, ∀ d', rowDate r' = some d' →
      n ≤ (d' - target).natAbs := by
    intro r' hr' d' hd'
    have hmem : f r' ∈ l1 ++ (rmid, n) :: l2 := by
      rw [← hmapeq]
      exact List.mem_map_of_mem f hr'
    have hfr' : (f r').2 = (d' - target).natAbs := by simp [hf, hd']
    rcases List.mem_append.mp hmem with hin1 | hin2
    · have := h1 _ hin1
      omega
    · rcases List.mem_cons.mp hin2 with hmid | hin2'
      · have hsz : (f r').2 = n := congrArg Prod.snd hmid
        omega
      · have := h2 _ hin2'
        omega
  refine ⟨d, hd, hdn, hminp, ?_⟩
  intro r' hr' d' hd' hdiff
  rw [hrowseq, hresteq] at hr'
  rcases List.mem_append.mp hr' with hin1 | hin2
  · have hmem1 : f r' ∈ l1 := by
      rw [← hm1]
      exact List.mem_map_of_mem f hin1
    have hlt := h1 _ hmem1
    have hfr' : (f r').2 = (d' - target).natAbs := by simp [hf, hd']
    omega
  · rcases List.mem_cons.mp hin2 with rfl | hin2'
    · rw [hd] at hd'
      have := Option.some.inj hd'
      omega
    · have hpair := hs
      rw [hrowseq, hresteq] at hpair
      have h3 := (List.pairwise_append.mp hpair).2.1
      have h4 := (List.pairwise_cons.mp h3).1 r' hin2'
      simp only [dateLtB, hd, hd'] at h4
      exact le_of_lt (of_decide_eq_true h4)

/-- Witness for C7: the rows dated `2024-01-01` and `2024-01-03` are both at
day distance `1` from the target `2024-01-02`; the scan selects the earlier
row, which therefore has minimum distance and the earliest date. -/
theorem horizon_matcher_first_min_witness :
    ∃ d, rowDate ["2024-01-01", "", "100"] = some d ∧
      (d - (toOrdinal 2024 1 2 : Int)).natAbs = 1 ∧
      (∀ r' ∈ [["2024-01-01", "", "100"], ["2024-01-03", "", "101"]], ∀ d',
        rowDate r' = some d' → 1 ≤ (d' - (toOrdinal 2024 1 2 : Int)).natAbs) ∧
      (∀ r' ∈ [["2024-01-01", "", "100"], ["2024-01-03", "", "101"]], ∀ d',
        rowDate r' = some d' → (d' - (toOrdinal 2024 1 2 : Int)).natAbs = 1 → d ≤ d') :=
  horizon_matcher_first_min (toOrdinal 2024 1 2 : Int)
    [["2024-01-01", "", "100"], ["2024-01-03", "", "101"]]
    (by decide) (by decide) ["2024-01-01", "", "100"] 1 (by decide)

/-! ## Claim C8 -/

/-- Claim C8: whenever the matcher returns a summary, `change_pct` equals
`(close - prev_close)/prev_close * 100` exactly when the matched close is
present and nonzero and is absent otherwise (no division by zero); and a
matched row whose close fails to parse still yields a present summary with
`prev_close` and `change_pct` absent, not an overall absent result. -/
theorem change_pct_policy :
    (∀ rows dur s, read_latest_from_csv rows dur = .summary s →
      s.change_pct = match s.prev_close with
        | some pc => if pc = 0 then none else some ((s.close - pc) / pc * 100)
        | none => none) ∧
    (∀ rows dur last lastDate c p,
      (dataRows rows).getLast? = some last →
      rowDate last = some lastDate →
      closeOfRow last = some c →
      closestFold (lastDate - durationDays dur) (dataRows rows) none = some p →
      closeFieldParse p.1 = none →
      read_latest_from_csv rows dur = .summary ⟨last.headD "", c, none, none⟩) := by
  constructor
  · intro rows dur s h
    simp only [read_latest_from_csv] at h
    split at h
    · exact absurd h (by simp)
    · split at h
      · exact absurd h (by simp)
      · split at h
        · exact absurd h (by simp)
        · injection h with h'
          rw [← h']
  · intro rows dur last lastDate c p hlast hdate hclose hfold hpc
    rw [read_latest_summary_eq rows dur last lastDate c p hlast hdate hclose hfold,
      hpc]

/-- Witness for C8: the matched row `2024-01-01` has unparsable close
`"abc"`, yet the call still returns a present summary with absent
`prev_close`/`change_pct`. -/
theorem change_pct_policy_witness :
    read_latest_from_csv [["2024-01-01", "", "abc"], ["2024-01-08", "", "110"]] "1w" =
      .summary ⟨"2024-01-08", 110, none, none⟩ :=
  change_pct_policy.2 [["2024-01-01", "", "abc"], ["2024-01-08", "", "110"]] "1w"
    ["2024-01-08", "", "110"] (toOrdinal 2024 1 8 : Int) 110
    (["2024-01-01", "", "abc"], 0) (by decide) (by decide) (by decide) (by decide)
    (by decide)

/-! ## Claim C10 -/

/-- Counterexample to C10 as stated: the single data row
`["2024-01-01", "100", "abc"]` has a close that parses to `100 ≠ 0` (through
the latest-row fallback to the second field), yet the returned summary has
`prev_close` and `change_pct` absent instead of `100` and `0`, because the
matched-row parse has no such fallback. -/
theorem single_row_fallback_counterexample :
    closeOfRow ["2024-01-01", "100", "abc"] = some 100 ∧
    read_latest_from_csv [["2024-01-01", "100", "abc"]] "1d" =
      .summary ⟨"2024-01-01", 100, none, none⟩ ∧
    read_latest_from_csv [["2024-01-01", "100", "abc"]] "1d" ≠
      .summary ⟨"2024-01-01", 100, some 100, some 0⟩ :=
  ⟨by decide, by decide, by decide⟩

/-- Amended C10: a single-data-row series matches the latest row against
itself for every horizon; when the row's positional close field itself
parses to a nonzero `c` (third field when present and nonempty, else the
second), the summary is present with `prev_close = c` and `change_pct = 0`.
When the close is only recovered through the latest-row fallback parse, the
summary is still present but `prev_close` and `change_pct` are absent. -/
theorem single_row_self_match (rows : List (List String)) (r : List String)
    (dur : String) (d : Int) (c : ℚ)
    (h1 : dataRows rows = [r])
    (h2 : rowDate r = some d)
    (h3 : closeFieldParse r = some c)
    (h4 : c ≠ 0) :
    read_latest_from_csv rows dur = .summary ⟨r.headD "", c, some c, some 0⟩ := by
  have hclose : closeOfRow r = some c := by
    unfold closeOfRow
    rw [h3]
  have hlast : (dataRows rows).getLast? = some r := by
    rw [h1]
    rfl
  have hfold : closestFold (d - durationDays dur) (dataRows rows) none =
      some (r, (d - (d - durationDays dur)).natAbs) := by
    rw [h1]
    simp only [closestFold, h2]
  rw [read_latest_summary_eq rows dur r d c _ hlast h2 hclose hfold]
  simp only [h3]
  rw [if_neg h4]
  have hz : (c - c) / c * 100 = 0 := by
    rw [sub_self, zero_div, zero_mul]
  rw [hz]

/-- Witness for the amended C10 at a concrete single-row series. -/
theorem single_row_self_match_witness :
    read_latest_from_csv [["2024-01-01", "", "100"]] "1m" =
      .summary ⟨"2024-01-01", 100, some 100, some 0⟩ :=
  single_row_self_match [["2024-01-01", "", "100"]] ["2024-01-01", "", "100"] "1m"
    (toOrdinal 2024 1 1 : Int) 100 (by decide) (by decide) (by decide) (by norm_num)

/-! ## Claim C9 -/

/-- Counterexample to C9 as stated: with header columns
`Date, Close, Other`, the Indicator Engine's name-based resolution selects
the `Close` column, whose value in the data row is `100`; but the Horizon
Matcher positionally reads the third field of the latest row and produces a
close of `7 ≠ 100` — the close-resolution policy is NOT shared between the
two paths. -/
theorem close_resolution_not_shared :
    resolveCloseCol ["Close", "Other"] = some "Close" ∧
    parseFloat "100" = some 100 ∧
    read_latest_from_csv [["Date", "Close", "Other"], ["2024-01-01", "100", "7"]] "1d" =
      .summary ⟨"2024-01-01", 7, some 7, some 0⟩ ∧
    (7 : ℚ) ≠ 100 := by
  refine ⟨by decide, by decide, ?_, by norm_num⟩
  have h := read_latest_summary_eq
    [["Date", "Close", "Other"], ["2024-01-01", "100", "7"]] "1d"
    ["2024-01-01", "100", "7"] (toOrdinal 2024 1 1 : Int) 7
    (["2024-01-01", "100", "7"], 1) (by decide) (by decide) (by decide) (by decide)
  have hp : closeFieldParse ["2024-01-01", "100", "7"] = some 7 := by decide
  rw [h, hp]
  norm_num

/-- Amended C9: the Indicator Engine resolves the close column from the
first present name among `Close, close, Adj Close, AdjClose, Adj_Close`, in
that priority order, falling back to the first non-date column when none is
present; the Horizon Matcher does NOT share this resolution — it reads the
third field of a row when present and nonempty, else the second field. -/
theorem close_resolution_policy :
    (∀ cols : List String, "Close" ∈ cols → resolveCloseCol cols = some "Close") ∧
    (∀ cols : List String, "Close" ∉ cols → "close" ∈ cols →
      resolveCloseCol cols = some "close") ∧
    (∀ cols : List String, "Close" ∉ cols → "close" ∉ cols → "Adj Close" ∈ cols →
      resolveCloseCol cols = some "Adj Close") ∧
    (∀ cols : List String, "Close" ∉ cols → "close" ∉ cols → "Adj Close" ∉ cols →
      "AdjClose" ∈ cols → resolveCloseCol cols = some "AdjClose") ∧
    (∀ cols : List String, "Close" ∉ cols → "close" ∉ cols → "Adj Close" ∉ cols →
      "AdjClose" ∉ cols → "Adj_Close" ∈ cols →
      resolveCloseCol cols = some "Adj_Close") ∧
    (∀ cols : List String, (∀ cand ∈ closeCandidateCols, cand ∉ cols) →
      resolveCloseCol cols = cols.head?) ∧
    (∀ r : List String, 2 < r.length → r.getD 2 "" ≠ "" →
      closeFieldParse r = parseFloat (r.getD 2 "")) ∧
    (∀ r : List String, ¬(2 < r.length ∧ r.getD 2 "" ≠ "") →
      closeFieldParse r = (r.get? 1).bind parseFloat) := by
  refine ⟨?_, ?_, ?_, ?_, ?_, ?_, ?_, ?_⟩
  · intro cols h
    simp [resolveCloseCol, closeCandidateCols, List.find?_cons, h]
  · intro cols h1 h2
    simp [resolveCloseCol, closeCandidateCols, List.find?_cons, h1, h2]
  · intro cols h1 h2 h3
    simp [resolveCloseCol, closeCandidateCols, List.find?_cons, h1, h2, h3]
  · intro cols h1 h2 h3 h4
    simp [resolveCloseCol, closeCandidateCols, List.find?_cons, h1, h2, h3, h4]
  · intro cols h1 h2 h3 h4 h5
    simp [resolveCloseCol, closeCandidateCols, List.find?_cons, h1, h2, h3, h4, h5]
  · intro cols h
    have hnone : closeCandidateCols.find? (fun c => cols.contains c) = none := by
      rw [List.find?_eq_none]
      intro c hc
      simp [h c hc]
    unfold resolveCloseCol
    rw [hnone]
  · intro r hlen hne
    unfold closeFieldParse
    rw [if_pos ⟨hlen, hne⟩]
  · intro r hcond
    unfold closeFieldParse
    rw [if_neg hcond]

/-- Witness for the amended C9: name priority picks `Close`; with no
candidate name present the first remaining column is used; the matcher reads
the third field positionally. -/
theorem close_resolution_policy_witness :
    resolveCloseCol ["Close", "Other"] = some "Close" ∧
    resolveCloseCol ["Price", "Value"] = some "Price" ∧
    closeFieldParse ["2024-01-01", "100", "7"] = parseFloat "7" :=
  ⟨close_resolution_policy.1 ["Close", "Other"] (by decide),
   close_resolution_policy.2.2.2.2.2.1 ["Price", "Value"] (by decide),
   close_resolution_policy.2.2.2.2.2.2.1 ["2024-01-01", "100", "7"]
     (by decide) (by decide)⟩

/-! ## Claim C1 -/

/-- Claim C1 (code bug): a heuristic-passing data row whose date does not
parse as `YYYY-MM-DD` is silently skipped by the guarded scan loop when it
is NOT the last data row — but in LAST position the unguarded
`datetime.strptime` call of app.py line 374 raises `ValueError` instead of
filtering, contradicting the never-raise contract.  The row `["9999"]`
passes the heuristic (length 4, leading digit) and fails the date parse. -/
theorem malformed_last_row_raises :
    read_latest_from_csv [["2024-01-01", "", "100"], ["9999"]] "1d" =
      .raisesValueError ∧
    read_latest_from_csv [["9999"], ["2024-01-01", "", "100"]] "1d" =
      .summary ⟨"2024-01-01", 100, some 100, some 0⟩ := by
  constructor
  · decide
  · have h := read_latest_summary_eq [["9999"], ["2024-01-01", "", "100"]] "1d"
      ["2024-01-01", "", "100"] (toOrdinal 2024 1 1 : Int) 100
      (["2024-01-01", "", "100"], 1) (by decide) (by decide) (by decide) (by decide)
    have hp : closeFieldParse ["2024-01-01", "", "100"] = some 100 := by decide
    rw [h, hp]
    norm_num
